import Mathlib

/-!
# Verification of the QRIS payload composer and checksum engine

Shallow embedding of the two source files of `AllxdDev-Hosting/Rest_Api`:
`src/api/orderkouta/orderkuota.js` (`calculateCRC16`, `createDynamicQRIS`)
and `src/unnamed/part_000` (`convertCRC16`, `createQRIS`).

JavaScript strings are modelled as `List Char`; the query-string `amount`
reaches both composers as a string, so it is modelled as a `List Char` as
well.  32-bit JavaScript bitwise arithmetic is modelled as `Nat` arithmetic
reduced modulo `2^32`; only the low 16 bits of the CRC register are ever
observed, so the signedness of JS 32-bit integers is immaterial.
-/

set_option maxRecDepth 10000

namespace Qris

/-! ## JavaScript string primitives -/

/-- JS `s.slice(0, -4)`: drop the last 4 characters (empty result when the
string has at most 4 characters). -/
def strip4 (s : List Char) : List Char := s.take (s.length - 4)

/-- JS `s.slice(-k)`: the last `k` characters of `s`. -/
def sliceLast (k : Nat) (s : List Char) : List Char := s.drop (s.length - k)

/-- JS `String.prototype.replace` with a plain-string pattern: replace the
first occurrence of `pat` by `repl`; no-op when `pat` does not occur.  (JS
replaces at index 0 for an empty pattern, which the first equation covers.) -/
def replaceFirst (pat repl : List Char) : List Char → List Char
  | [] => if pat = [] then repl else []
  | c :: rest =>
    if pat ≠ [] ∧ pat.isPrefixOf (c :: rest) then
      repl ++ List.drop (pat.length - 1) rest
    else
      c :: replaceFirst pat repl rest

/-- Fuel-driven worker for `splitOnStr` (fuel `≥ length` of the input makes
the fuel irrelevant; it exists only to keep the recursion structural, so
that the kernel can evaluate the function). -/
def splitAux (sep : List Char) : Nat → List Char → List (List Char)
  | _, [] => [[]]
  | 0, s => [s]
  | fuel + 1, c :: rest =>
    if sep ≠ [] ∧ sep.isPrefixOf (c :: rest) then
      [] :: splitAux sep fuel (List.drop (sep.length - 1) rest)
    else
      match splitAux sep fuel rest with
      | [] => [[c]]
      | h :: t => (c :: h) :: t

/-- JS `String.prototype.split` with a non-empty plain-string separator:
the segments between the leftmost non-overlapping occurrences of `sep`. -/
def splitOnStr (sep s : List Char) : List (List Char) := splitAux sep s.length s

/-- JS array indexing as it behaves under string concatenation: a present
element is itself, a missing element is `undefined`, which JS coerces to
the string `"undefined"`. -/
def jsAt (l : List (List Char)) (i : Nat) : List Char :=
  match l.get? i with
  | some x => x
  | none => ['u', 'n', 'd', 'e', 'f', 'i', 'n', 'e', 'd']

/-- Number of positions of `s` at which `pat` occurs as a substring. -/
def countPos (pat s : List Char) : Nat :=
  (List.range s.length).countP (fun i => pat.isPrefixOf (s.drop i))

/-! ## Decimal / hexadecimal rendering (JS `Number.prototype.toString`) -/

/-- The character for a single digit in base up to 36, uppercase
(`0`–`9` then `A`–…), as JS `toString(base).toUpperCase()` renders it. -/
def digitChar (n : Nat) : Char :=
  if n < 10 then Char.ofNat (48 + n) else Char.ofNat (55 + n)

/-- Fuel-driven decimal digit expansion (fuel `≥ n` suffices). -/
def decDigitsAux : Nat → Nat → List Char
  | 0, _ => []
  | fuel + 1, n => if n = 0 then [] else decDigitsAux fuel (n / 10) ++ [digitChar (n % 10)]

/-- The decimal digits of `n` (empty for `0`). -/
def toDecDigits (n : Nat) : List Char := decDigitsAux n n

/-- JS `n.toString()` for a non-negative number: decimal, and `"0"` for 0. -/
def jsNatToString (n : Nat) : List Char := if n = 0 then ['0'] else toDecDigits n

/-- Fuel-driven uppercase hexadecimal digit expansion (fuel `≥ n` suffices). -/
def hexDigitsAux : Nat → Nat → List Char
  | 0, _ => []
  | fuel + 1, n => if n = 0 then [] else hexDigitsAux fuel (n / 16) ++ [digitChar (n % 16)]

/-- The uppercase hexadecimal digits of `n` (empty for `0`). -/
def toHexDigits (n : Nat) : List Char := hexDigitsAux n n

/-- JS `n.toString(16).toUpperCase()`: uppercase hex, `"0"` for 0. -/
def jsNatToHexUpper (n : Nat) : List Char := if n = 0 then ['0'] else toHexDigits n

/-! ## The Checksum Engine (`calculateCRC16` / `convertCRC16`)

The two source files contain character-for-character identical checksum
code (`calculateCRC16` in `orderkuota.js`, `convertCRC16` in `part_000`),
so one embedding serves both. -/

/-- Truncation to a JS 32-bit integer's bit pattern. -/
def js32 (n : Nat) : Nat := n % 4294967296

/-- One inner-loop round of the source:
`if (crc & 0x8000) { crc = (crc << 1) ^ 0x1021; } else { crc = crc << 1; }`. -/
def crcRound (crc : Nat) : Nat :=
  if crc &&& 0x8000 ≠ 0 then js32 (js32 (crc * 2) ^^^ 0x1021) else js32 (crc * 2)

/-- One character step of the source: `crc ^= str.charCodeAt(c) << 8` followed
by eight rounds. -/
def crcStep (crc code : Nat) : Nat :=
  (List.range 8).foldl (fun c _ => crcRound c) (js32 (crc ^^^ js32 (code * 256)))

/-- The CRC register after the source's two nested loops, starting from
`0xFFFF`. -/
def crc16Register (s : List Char) : Nat :=
  s.foldl (fun crc ch => crcStep crc ch.toNat) 0xFFFF

/-- `calculateCRC16` of `orderkuota.js` (= `convertCRC16` of `part_000`):
`("000" + (crc & 0xFFFF).toString(16).toUpperCase()).slice(-4)`. -/
def calculateCRC16 (s : List Char) : List Char :=
  sliceLast 4 (['0', '0', '0'] ++ jsNatToHexUpper (crc16Register s &&& 0xFFFF))

/-! ## The Payload Composer -/

/-- The error taxonomy of `createDynamicQRIS`: the base-data guard, the
amount guard, and the `parts.length !== 2` check. -/
inductive QrisError
  | invalidBase
  | invalidAmount
  | malformedTemplate
deriving DecidableEq

/-- Result of the composer: the final payload string, or a thrown error. -/
inductive QrisResult
  | ok (s : List Char)
  | error (e : QrisError)
deriving DecidableEq

/-- Whether a composition succeeded. -/
def QrisResult.isOk : QrisResult → Bool
  | .ok _ => true
  | .error _ => false

/-- The static-mode marker `"010211"`. -/
def staticMarker : List Char := ['0', '1', '0', '2', '1', '1']

/-- The dynamic-mode marker `"010212"`. -/
def dynamicMarker : List Char := ['0', '1', '0', '2', '1', '2']

/-- The anchor marker `"5802ID"`. -/
def anchorMarker : List Char := ['5', '8', '0', '2', 'I', 'D']

/-- JS `Number()` coercion as used by the amount guard, restricted to the
model's input domain: a string of ASCII decimal digits parses to its value
(the empty string parses to 0, as JS `Number("") === 0`); any string with a
non-digit character is modelled as NaN (`none`).  Decimal points, signs,
exponents and whitespace are deliberately outside the model — the amounts
the routes supply are plain digit strings. -/
def jsNumber (s : List Char) : Option Nat :=
  if s.all (fun c => '0' ≤ c ∧ c ≤ '9') then
    some (s.foldl (fun n c => 10 * n + (c.toNat - 48)) 0)
  else
    none

/-- The two-character length prefix of the amount field:
`("0" + amount.length).slice(-2)`. -/
def pad2 (n : Nat) : List Char := sliceLast 2 (['0'] ++ jsNatToString n)

/-- The amount field `"54" + ("0" + amountStr.length).slice(-2) + amountStr`. -/
def amountFieldOf (amountStr : List Char) : List Char :=
  ['5', '4'] ++ pad2 amountStr.length ++ amountStr

/-- The template after `slice(0, -4)` and
`.replace("010211", "010212")`, i.e. the `processedQris` local of
`createDynamicQRIS` (also `step1` of `createQRIS`). -/
def processedOf (t : List Char) : List Char :=
  replaceFirst staticMarker dynamicMarker (strip4 t)

/-- `createDynamicQRIS` of `orderkuota.js`, up to the point where the final
payload string `finalQrisString + crc` is fixed (the QR rasterisation and
upload that follow are external I/O).  The base-data guard
`!baseQrisData || typeof baseQrisData !== 'string' || baseQrisData.length < 10`
reduces to the length test in the model (inputs are strings, and the empty
string has length 0); the amount guard is `isNaN(amount) || amount <= 0`,
which for digit-string amounts is `NaN` or value 0. -/
def createDynamicQRIS (baseQrisData amount : List Char) : QrisResult :=
  if baseQrisData.length < 10 then .error .invalidBase
  else
    match jsNumber amount with
    | none => .error .invalidAmount
    | some v =>
      if v = 0 then .error .invalidAmount
      else
        match splitOnStr anchorMarker (processedOf baseQrisData) with
        | [p0, p1] =>
          let finalQris := p0 ++ amountFieldOf amount ++ anchorMarker ++ p1
          .ok (finalQris ++ calculateCRC16 finalQris)
        | _ => .error .malformedTemplate

/-- `createQRIS` of `part_000`, up to the point where the payload string
`result` is fixed.  It has no validation at all: `step2[1]` is `undefined`
when the split produced a single part, and JS string concatenation renders
that as `"undefined"`; parts beyond `step2[1]` are silently dropped.
`convertCRC16` there is character-for-character the same code as
`calculateCRC16`. -/
def createQRIS (amount codeqr : List Char) : List Char :=
  let step2 := splitOnStr anchorMarker (processedOf codeqr)
  let uang := ['5', '4'] ++ pad2 amount.length ++ amount ++ anchorMarker
  let core := jsAt step2 0 ++ uang ++ jsAt step2 1
  core ++ calculateCRC16 core

/-! ## Occurrence counting: basic recursion -/

theorem countPos_nil (pat : List Char) : countPos pat [] = 0 := rfl

theorem countPos_cons (pat : List Char) (c : Char) (s : List Char) :
    countPos pat (c :: s) =
      (if pat.isPrefixOf (c :: s) = true then 1 else 0) + countPos pat s := by
  unfold countPos
  rw [List.length_cons, List.range_succ_eq_map, List.countP_cons, List.countP_map]
  simp only [List.drop_zero, Function.comp_def, Nat.succ_eq_add_one, List.drop_succ_cons]
  omega

theorem countPos_eq_zero_of_lt (pat s : List Char) (h : s.length < pat.length) :
    countPos pat s = 0 := by
  induction s with
  | nil => rfl
  | cons c rest ih =>
    rw [countPos_cons]
    have hr : countPos pat rest = 0 := ih (by simp at h ⊢; omega)
    have : ¬ pat.isPrefixOf (c :: rest) = true := by
      intro hp
      have := (List.isPrefixOf_iff_prefix.mp hp).length_le
      simp at this h
      omega
    simp [this, hr]

theorem length_le_of_countPos_ne_zero (pat s : List Char) (h : countPos pat s ≠ 0) :
    pat.length ≤ s.length := by
  by_contra hlt
  exact h (countPos_eq_zero_of_lt pat s (by omega))

theorem countPos_self (pat : List Char) (h : pat ≠ []) : countPos pat pat = 1 := by
  match pat, h with
  | c :: rest, _ =>
    rw [countPos_cons]
    have h1 : (c :: rest).isPrefixOf (c :: rest) = true :=
      List.isPrefixOf_iff_prefix.mpr (List.prefix_refl _)
    have h2 : countPos (c :: rest) rest = 0 :=
      countPos_eq_zero_of_lt _ _ (by simp)
    simp [h1, h2]

/-! ## Prefix/suffix helpers for the append-splitting lemmas -/

theorem prefix_of_append_short {p x y : List Char} (h : p.length ≤ x.length) :
    p.isPrefixOf (x ++ y) = p.isPrefixOf x := by
  cases hab : p.isPrefixOf (x ++ y) <;> cases hx : p.isPrefixOf x
  · rfl
  · exfalso
    have : p <+: x ++ y := (List.isPrefixOf_iff_prefix.mp hx).trans (List.prefix_append x y)
    rw [List.isPrefixOf_iff_prefix.mpr this] at hab
    simp at hab
  · exfalso
    have hpre := List.isPrefixOf_iff_prefix.mp hab
    rw [List.prefix_iff_eq_take, List.take_append_of_le_length h] at hpre
    have : p <+: x := List.prefix_iff_eq_take.mpr hpre
    rw [List.isPrefixOf_iff_prefix.mpr this] at hx
    simp at hx
  · rfl

theorem span_drop {p x y : List Char} (h : p.isPrefixOf (x ++ y) = true)
    (hlt : x.length < p.length) : (p.drop x.length).isPrefixOf y = true := by
  obtain ⟨t, ht⟩ := List.isPrefixOf_iff_prefix.mp h
  apply List.isPrefixOf_iff_prefix.mpr
  refine ⟨t, ?_⟩
  have hy : y = List.drop x.length (p ++ t) := by
    rw [ht, List.drop_left]
  rw [hy, List.drop_append_of_le_length (by omega)]

theorem span_take {p x y : List Char} (h : p.isPrefixOf (x ++ y) = true)
    (hlt : x.length < p.length) : x = p.take x.length := by
  obtain ⟨t, ht⟩ := List.isPrefixOf_iff_prefix.mp h
  have hc := congrArg (List.take x.length) ht
  rw [List.take_append_of_le_length (by omega),
    List.take_append_of_le_length (le_refl _), List.take_length] at hc
  exact hc.symm

/-- Splitting an occurrence count at an append boundary: if no proper
suffix of `pat` can begin `b`, no occurrence spans the boundary. -/
theorem countPos_append_right {pat b : List Char}
    (hspan : ∀ j, j < pat.length → 0 < j → (pat.drop j).isPrefixOf b = false)
    (a : List Char) : countPos pat (a ++ b) = countPos pat a + countPos pat b := by
  induction a with
  | nil => simp [countPos_nil]
  | cons c a' ih =>
    rw [List.cons_append, countPos_cons, countPos_cons, ih]
    have hpre : pat.isPrefixOf (c :: (a' ++ b)) = pat.isPrefixOf (c :: a') := by
      rcases le_or_lt pat.length (c :: a').length with hle | hlt
      · exact prefix_of_append_short (x := c :: a') (y := b) hle
      · cases hab : pat.isPrefixOf (c :: (a' ++ b)) with
        | false =>
          cases hxx : pat.isPrefixOf (c :: a') with
          | false => rfl
          | true =>
            exfalso
            have := (List.isPrefixOf_iff_prefix.mp hxx).length_le
            omega
        | true =>
          exfalso
          have hd := span_drop (p := pat) (x := c :: a') (y := b) hab hlt
          have hs := hspan (c :: a').length hlt (by simp)
          rw [hd] at hs
          simp at hs
    rw [hpre]
    omega

/-- Splitting an occurrence count at an append boundary: if no proper
prefix of `pat` can end `a`, no occurrence spans the boundary. -/
theorem countPos_append_left {pat a : List Char}
    (hspan : ∀ j, j < pat.length → 0 < j → (pat.take j).isSuffixOf a = false)
    (b : List Char) : countPos pat (a ++ b) = countPos pat a + countPos pat b := by
  induction a with
  | nil => simp [countPos_nil]
  | cons c a' ih =>
    have hspan' : ∀ j, j < pat.length → 0 < j → (pat.take j).isSuffixOf a' = false := by
      intro j hj2 hj1
      rcases hx : (pat.take j).isSuffixOf a' with _ | _
      · rfl
      · exfalso
        have : (pat.take j).isSuffixOf (c :: a') = true := by
          apply List.isSuffixOf_iff_suffix.mpr
          exact (List.isSuffixOf_iff_suffix.mp hx).trans (List.suffix_cons c a')
        rw [hspan j hj2 hj1] at this
        exact Bool.false_ne_true this
    rw [List.cons_append, countPos_cons, countPos_cons, ih hspan']
    have hpre : pat.isPrefixOf (c :: (a' ++ b)) = pat.isPrefixOf (c :: a') := by
      rcases le_or_lt pat.length (c :: a').length with hle | hlt
      · exact prefix_of_append_short (x := c :: a') (y := b) hle
      · cases hab : pat.isPrefixOf (c :: (a' ++ b)) with
        | false =>
          cases hxx : pat.isPrefixOf (c :: a') with
          | false => rfl
          | true =>
            exfalso
            have := (List.isPrefixOf_iff_prefix.mp hxx).length_le
            omega
        | true =>
          exfalso
          have hx := span_take (p := pat) (x := c :: a') (y := b) hab hlt
          have hsuf : (pat.take (c :: a').length).isSuffixOf (c :: a') = true := by
            rw [← hx]
            exact List.isSuffixOf_iff_suffix.mpr (List.suffix_refl _)
          rw [hspan (c :: a').length hlt (by simp)] at hsuf
          simp at hsuf
    rw [hpre]
    omega

/-! ## Properties of `splitOnStr` -/

theorem splitAux_nil (sep : List Char) (f : Nat) : splitAux sep f [] = [[]] := by
  cases f <;> rfl

theorem splitAux_congr (sep : List Char) :
    ∀ f₁ : Nat, ∀ f₂ : Nat, ∀ s : List Char, s.length ≤ f₁ → s.length ≤ f₂ →
      splitAux sep f₁ s = splitAux sep f₂ s := by
  intro f₁
  induction f₁ with
  | zero =>
    intro f₂ s h1 _
    have : s = [] := by
      cases s with
      | nil => rfl
      | cons c r => simp at h1
    subst this
    rw [splitAux_nil, splitAux_nil]
  | succ fuel ih =>
    intro f₂ s h1 h2
    cases s with
    | nil => rw [splitAux_nil, splitAux_nil]
    | cons c rest =>
      cases f₂ with
      | zero => simp at h2
      | succ g =>
        show splitAux sep (fuel + 1) (c :: rest) = splitAux sep (g + 1) (c :: rest)
        simp only [splitAux]
        by_cases hp : sep ≠ [] ∧ sep.isPrefixOf (c :: rest)
        · simp only [if_pos hp]
          have hlen : (List.drop (sep.length - 1) rest).length ≤ fuel := by
            simp only [List.length_drop]
            simp at h1
            omega
          have hlen' : (List.drop (sep.length - 1) rest).length ≤ g := by
            simp only [List.length_drop]
            simp at h2
            omega
          rw [ih g _ hlen hlen']
        · simp only [if_neg hp]
          have hlen : rest.length ≤ fuel := by simp at h1; omega
          have hlen' : rest.length ≤ g := by simp at h2; omega
          rw [ih g rest hlen hlen']

theorem splitAux_ne_nil (sep : List Char) : ∀ f s, splitAux sep f s ≠ [] := by
  intro f
  induction f with
  | zero =>
    intro s
    cases s <;> simp [splitAux]
  | succ fuel ih =>
    intro s
    cases s with
    | nil => simp [splitAux_nil]
    | cons c rest =>
      simp only [splitAux]
      by_cases hp : sep ≠ [] ∧ sep.isPrefixOf (c :: rest)
      · simp only [if_pos hp]
        simp
      · simp only [if_neg hp]
        cases hr : splitAux sep fuel rest <;> simp

theorem splitOnStr_ne_nil (sep s : List Char) : splitOnStr sep s ≠ [] :=
  splitAux_ne_nil sep s.length s

theorem splitOnStr_nil (sep : List Char) : splitOnStr sep [] = [[]] := rfl

theorem splitOnStr_cons_pre {sep : List Char} (c : Char) (rest : List Char)
    (hne : sep ≠ []) (hp : sep.isPrefixOf (c :: rest) = true) :
    splitOnStr sep (c :: rest) =
      [] :: splitOnStr sep (List.drop (sep.length - 1) rest) := by
  show splitAux sep (rest.length + 1) (c :: rest) = _
  simp only [splitAux, if_pos (And.intro hne hp)]
  refine congrArg ([] :: ·) ?_
  apply splitAux_congr
  · simp only [List.length_drop]; omega
  · exact le_refl _

theorem splitOnStr_cons_neg {sep : List Char} (c : Char) (rest : List Char)
    (hp : sep.isPrefixOf (c :: rest) = false) :
    splitOnStr sep (c :: rest) =
      (c :: (splitOnStr sep rest).headI) :: (splitOnStr sep rest).tail := by
  show splitAux sep (rest.length + 1) (c :: rest) = _
  have hnp : ¬ (sep ≠ [] ∧ sep.isPrefixOf (c :: rest)) := by
    intro hc
    rw [hc.2] at hp
    simp at hp
  simp only [splitAux, if_neg hnp]
  have : splitAux sep rest.length rest = splitOnStr sep rest := rfl
  rw [this]
  cases hr : splitOnStr sep rest with
  | nil => exact absurd hr (splitOnStr_ne_nil sep rest)
  | cons h t => simp

/-- A pattern with no self-overlap: no nonempty proper suffix of `pat` is a
prefix of `pat`. -/
abbrev noBorderDrop (pat : List Char) : Prop :=
  ∀ j, j < pat.length → 0 < j → (pat.drop j).isPrefixOf pat = false

/-- A pattern with no self-overlap, stated on the other side: no nonempty
proper prefix of `pat` is a suffix of `pat`. -/
abbrev noBorderTake (pat : List Char) : Prop :=
  ∀ j, j < pat.length → 0 < j → (pat.take j).isSuffixOf pat = false

theorem countPos_sep_append (sep d : List Char) (hne : sep ≠ [])
    (hnbT : noBorderTake sep) :
    countPos sep (sep ++ d) = countPos sep d + 1 := by
  rw [countPos_append_left (fun j hj2 hj1 => hnbT j hj2 hj1) d, countPos_self sep hne]
  omega

theorem splitOnStr_length (sep : List Char) (hne : sep ≠ []) (hnbT : noBorderTake sep) :
    ∀ n s, s.length ≤ n → (splitOnStr sep s).length = countPos sep s + 1 := by
  intro n
  induction n with
  | zero =>
    intro s hs
    have : s = [] := by cases s with
      | nil => rfl
      | cons c r => simp at hs
    subst this
    simp [splitOnStr_nil, countPos_nil]
  | succ n ih =>
    intro s hs
    cases s with
    | nil => simp [splitOnStr_nil, countPos_nil]
    | cons c rest =>
      cases hp : sep.isPrefixOf (c :: rest) with
      | true =>
        rw [splitOnStr_cons_pre c rest hne hp]
        have hdec : c :: rest = sep ++ List.drop (sep.length - 1) rest := by
          obtain ⟨t, ht⟩ := List.isPrefixOf_iff_prefix.mp hp
          have : List.drop (sep.length - 1) rest = t := by
            have hd := congrArg (List.drop sep.length) ht
            rw [List.drop_left] at hd
            obtain ⟨m, hm⟩ : ∃ m, sep.length = m + 1 := by
              cases hsep : sep with
              | nil => exact absurd hsep hne
              | cons a b => exact ⟨b.length, by simp⟩
            rw [hd, hm]
            simp
          rw [this, ht]
        rw [hdec, countPos_sep_append sep _ hne hnbT]
        have hlen2 : (List.drop (sep.length - 1) rest).length ≤ n := by
          simp only [List.length_drop]
          simp at hs
          omega
        rw [List.length_cons, ih _ hlen2]
      | false =>
        rw [splitOnStr_cons_neg c rest hp, countPos_cons]
        rw [hp]
        simp only [Bool.false_eq_true, if_false]
        have hlen2 : rest.length ≤ n := by simp at hs; omega
        have hr := ih rest hlen2
        cases hq : splitOnStr sep rest with
        | nil => exact absurd hq (splitOnStr_ne_nil sep rest)
        | cons h t =>
          rw [hq] at hr
          simp at hr ⊢
          omega

theorem splitOnStr_singleton (sep : List Char) (hne : sep ≠ []) :
    ∀ n s, s.length ≤ n → ∀ p, splitOnStr sep s = [p] → s = p := by
  intro n
  induction n with
  | zero =>
    intro s hs p hsp
    have : s = [] := by cases s with
      | nil => rfl
      | cons c r => simp at hs
    subst this
    rw [splitOnStr_nil] at hsp
    simp at hsp
    exact hsp.symm
  | succ n ih =>
    intro s hs p hsp
    cases s with
    | nil =>
      rw [splitOnStr_nil] at hsp
      simp at hsp
      exact hsp.symm
    | cons c rest =>
      cases hp : sep.isPrefixOf (c :: rest) with
      | true =>
        rw [splitOnStr_cons_pre c rest hne hp] at hsp
        exfalso
        have h2 : splitOnStr sep (List.drop (sep.length - 1) rest) = [] := by
          have := congrArg List.tail hsp
          simpa using this
        exact splitOnStr_ne_nil sep _ h2
      | false =>
        rw [splitOnStr_cons_neg c rest hp] at hsp
        have htl : (splitOnStr sep rest).tail = [] := by
          have := congrArg List.tail hsp
          simpa using this
        have hhd : p = c :: (splitOnStr sep rest).headI := by
          have := congrArg List.headI hsp
          simpa using this.symm
        cases hq : splitOnStr sep rest with
        | nil => exact absurd hq (splitOnStr_ne_nil sep rest)
        | cons h t =>
          have ht' : t = [] := by rw [hq] at htl; simpa using htl
          have hrest : rest = h := by
            apply ih rest (by simp at hs; omega)
            rw [hq, ht']
          rw [hhd, hq, hrest]
          simp

theorem splitOnStr_two (sep : List Char) (hne : sep ≠ []) :
    ∀ n s, s.length ≤ n → ∀ p0 p1, splitOnStr sep s = [p0, p1] →
      s = p0 ++ sep ++ p1 := by
  intro n
  induction n with
  | zero =>
    intro s hs p0 p1 hsp
    have : s = [] := by cases s with
      | nil => rfl
      | cons c r => simp at hs
    subst this
    rw [splitOnStr_nil] at hsp
    simp at hsp
  | succ n ih =>
    intro s hs p0 p1 hsp
    cases s with
    | nil =>
      rw [splitOnStr_nil] at hsp
      simp at hsp
    | cons c rest =>
      cases hp : sep.isPrefixOf (c :: rest) with
      | true =>
        rw [splitOnStr_cons_pre c rest hne hp] at hsp
        have hp0 : p0 = [] := by
          have := congrArg List.headI hsp
          simpa using this.symm
        have hrest : splitOnStr sep (List.drop (sep.length - 1) rest) = [p1] := by
          have := congrArg List.tail hsp
          simpa using this
        have hd := splitOnStr_singleton sep hne _ _
          (le_refl (List.drop (sep.length - 1) rest).length) p1 hrest
        obtain ⟨t, ht⟩ := List.isPrefixOf_iff_prefix.mp hp
        have hdrop : List.drop (sep.length - 1) rest = t := by
          have hdd := congrArg (List.drop sep.length) ht
          rw [List.drop_left] at hdd
          obtain ⟨m, hm⟩ : ∃ m, sep.length = m + 1 := by
            cases hsep : sep with
            | nil => exact absurd hsep hne
            | cons a b => exact ⟨b.length, by simp⟩
          rw [hdd, hm]
          simp
        rw [hp0, ← ht, List.nil_append, ← hdrop, hd]
      | false =>
        rw [splitOnStr_cons_neg c rest hp] at hsp
        have hhd : p0 = c :: (splitOnStr sep rest).headI := by
          have := congrArg List.headI hsp
          simpa using this.symm
        have htl : (splitOnStr sep rest).tail = [p1] := by
          have := congrArg List.tail hsp
          simpa using this
        cases hq : splitOnStr sep rest with
        | nil => exact absurd hq (splitOnStr_ne_nil sep rest)
        | cons h t =>
          have hsp' : splitOnStr sep rest = [h, p1] := by
            rw [hq]
            rw [hq] at htl
            simp at htl
            rw [htl]
          have hrest := ih rest (by simp at hs; omega) h p1 hsp'
          rw [hhd, hq, hrest]
          simp

/-! ## Properties of `replaceFirst` -/

theorem replaceFirst_not_found (pat repl : List Char) (hne : pat ≠ []) :
    ∀ s, countPos pat s = 0 → replaceFirst pat repl s = s := by
  intro s
  induction s with
  | nil => intro _; simp [replaceFirst, hne]
  | cons c rest ih =>
    intro h0
    rw [countPos_cons] at h0
    cases hp : pat.isPrefixOf (c :: rest) with
    | true => rw [hp] at h0; simp at h0
    | false =>
      rw [hp] at h0
      simp only [Bool.false_eq_true, if_false, Nat.zero_add] at h0
      have hnp : ¬ (pat ≠ [] ∧ pat.isPrefixOf (c :: rest) = true) := by
        intro hc; rw [hp] at hc; simp at hc
      simp only [replaceFirst, if_neg hnp]
      rw [ih h0]

theorem replaceFirst_found (pat repl : List Char) (hne : pat ≠ []) :
    ∀ s, countPos pat s ≠ 0 →
      ∃ u v, s = u ++ pat ++ v ∧ replaceFirst pat repl s = u ++ repl ++ v := by
  intro s
  induction s with
  | nil => intro h0; rw [countPos_nil] at h0; exact absurd rfl h0
  | cons c rest ih =>
    intro h0
    cases hp : pat.isPrefixOf (c :: rest) with
    | true =>
      obtain ⟨t, ht⟩ := List.isPrefixOf_iff_prefix.mp hp
      have hdrop : List.drop (pat.length - 1) rest = t := by
        have hdd := congrArg (List.drop pat.length) ht
        rw [List.drop_left] at hdd
        obtain ⟨m, hm⟩ : ∃ m, pat.length = m + 1 := by
          cases hpat : pat with
          | nil => exact absurd hpat hne
          | cons a b => exact ⟨b.length, by simp⟩
        rw [hdd, hm]
        simp
      refine ⟨[], t, by simp [← ht], ?_⟩
      simp only [replaceFirst, if_pos (And.intro hne hp), hdrop]
      simp
    | false =>
      rw [countPos_cons, hp] at h0
      simp only [Bool.false_eq_true, if_false, Nat.zero_add] at h0
      obtain ⟨u, v, hs, hr⟩ := ih h0
      have hnp : ¬ (pat ≠ [] ∧ pat.isPrefixOf (c :: rest) = true) := by
        intro hc; rw [hp] at hc; simp at hc
      refine ⟨c :: u, v, by simp [hs], ?_⟩
      simp only [replaceFirst, if_neg hnp, hr]
      simp

theorem replaceFirst_length (pat repl : List Char) (hlen : pat.length = repl.length) :
    ∀ s, (replaceFirst pat repl s).length = s.length := by
  intro s
  induction s with
  | nil =>
    by_cases hp : pat = []
    · subst hp
      simp only [replaceFirst, if_pos rfl]
      simp at hlen
      simp [List.length_eq_zero.mp hlen.symm]
    · simp [replaceFirst, hp]
  | cons c rest ih =>
    by_cases hp : pat ≠ [] ∧ pat.isPrefixOf (c :: rest) = true
    · simp only [replaceFirst, if_pos hp]
      have hple := (List.isPrefixOf_iff_prefix.mp hp.2).length_le
      have hpne : 0 < pat.length := by
        cases hpat : pat with
        | nil => exact absurd hpat hp.1
        | cons a b => simp
      simp only [List.length_append, List.length_drop, List.length_cons] at hple ⊢
      omega
    · simp only [replaceFirst, if_neg hp]
      simp only [List.length_cons, ih]

/-! ## Counting occurrences across a three-part concatenation -/

theorem not_isPrefixOf_cons_of_headI {p : List Char} {c : Char} (x : List Char)
    (hne : p ≠ []) (hhd : p.headI ≠ c) : p.isPrefixOf (c :: x) = false := by
  cases hp : p with
  | nil => exact absurd hp hne
  | cons a t =>
    rw [hp] at hhd
    simp only [List.headI] at hhd
    simp [List.isPrefixOf, hhd]

theorem countPos_mid {m w : List Char} (hw : m.length - 1 ≤ w.length)
    (h1 : ∀ j, j < m.length → 0 < j → (m.drop j).isPrefixOf w = false)
    (h2 : ∀ j, j < m.length → 0 < j → (m.take j).isSuffixOf w = false)
    (u v : List Char) :
    countPos m (u ++ w ++ v) = countPos m u + countPos m w + countPos m v := by
  have hr : ∀ j, j < m.length → 0 < j → (m.drop j).isPrefixOf (w ++ v) = false := by
    intro j hj2 hj1
    rw [prefix_of_append_short (by simp only [List.length_drop]; omega)]
    exact h1 j hj2 hj1
  rw [List.append_assoc, countPos_append_right hr u,
    countPos_append_left (fun j hj2 hj1 => h2 j hj2 hj1) v]
  omega

/-! ## Properties of the digit renderings -/

theorem decDigitsAux_zero (f : Nat) : decDigitsAux f 0 = [] := by
  cases f <;> simp [decDigitsAux]

theorem decDigitsAux_congr :
    ∀ f₁ f₂ n : Nat, n ≤ f₁ → n ≤ f₂ → decDigitsAux f₁ n = decDigitsAux f₂ n := by
  intro f₁
  induction f₁ with
  | zero =>
    intro f₂ n h1 _
    have : n = 0 := by omega
    subst this
    rw [decDigitsAux_zero, decDigitsAux_zero]
  | succ f ih =>
    intro f₂ n h1 h2
    by_cases hn : n = 0
    · subst hn
      rw [decDigitsAux_zero, decDigitsAux_zero]
    · cases f₂ with
      | zero => omega
      | succ g =>
        simp only [decDigitsAux, if_neg hn]
        have hd : n / 10 < n := Nat.div_lt_self (by omega) (by omega)
        rw [ih g (n / 10) (by omega) (by omega)]

theorem toDecDigits_zero : toDecDigits 0 = [] := rfl

theorem toDecDigits_eq (n : Nat) (hn : n ≠ 0) :
    toDecDigits n = toDecDigits (n / 10) ++ [digitChar (n % 10)] := by
  cases n with
  | zero => exact absurd rfl hn
  | succ m =>
    show decDigitsAux (m + 1) (m + 1) = _
    simp only [decDigitsAux, if_neg hn]
    have hd : (m + 1) / 10 < m + 1 := Nat.div_lt_self (by omega) (by omega)
    rw [decDigitsAux_congr m ((m + 1) / 10) ((m + 1) / 10) (by omega) (le_refl _)]
    rfl

theorem toDecDigits_small (n : Nat) (h1 : 1 ≤ n) (h2 : n < 10) :
    toDecDigits n = [digitChar n] := by
  rw [toDecDigits_eq n (by omega), Nat.div_eq_of_lt h2, toDecDigits_zero,
    Nat.mod_eq_of_lt h2]
  simp

theorem toDecDigits_mid (n : Nat) (h1 : 10 ≤ n) (h2 : n < 100) :
    toDecDigits n = [digitChar (n / 10), digitChar (n % 10)] := by
  rw [toDecDigits_eq n (by omega),
    toDecDigits_small (n / 10) (by omega) (by omega)]
  rfl

theorem sliceLast_two_append (xs : List Char) (a b : Char) :
    sliceLast 2 (xs ++ [a, b]) = [a, b] := by
  unfold sliceLast
  have hl : (xs ++ [a, b]).length - 2 = xs.length := by simp
  rw [hl, List.drop_left]

/-- The length prefix the formatter emits, for every length: the last two
decimal digits, i.e. the length modulo 100, zero-padded to two digits. -/
theorem pad2_eq_mod (n : Nat) :
    pad2 n = [digitChar (n / 10 % 10), digitChar (n % 10)] := by
  unfold pad2 jsNatToString
  by_cases h0 : n = 0
  · subst h0
    rfl
  · simp only [if_neg h0]
    by_cases h10 : n < 10
    · rw [toDecDigits_small n (by omega) h10,
        Nat.div_eq_of_lt h10, Nat.zero_mod, Nat.mod_eq_of_lt h10]
      rfl
    · by_cases h100 : n < 100
      · rw [toDecDigits_mid n (by omega) h100,
          Nat.mod_eq_of_lt (show n / 10 < 10 by omega)]
        rfl
      · rw [toDecDigits_eq n (by omega), toDecDigits_eq (n / 10) (by omega)]
        have hre : ['0'] ++ ((toDecDigits (n / 10 / 10) ++ [digitChar (n / 10 % 10)]) ++
            [digitChar (n % 10)]) =
            (['0'] ++ toDecDigits (n / 10 / 10)) ++
              [digitChar (n / 10 % 10), digitChar (n % 10)] := by
          simp
        rw [hre, sliceLast_two_append]

theorem pad2_length (n : Nat) : (pad2 n).length = 2 := by
  rw [pad2_eq_mod]
  rfl

/-- The uppercase-hexadecimal character alphabet. -/
def isHexUpper (c : Char) : Bool := ('0' ≤ c && c ≤ '9') || ('A' ≤ c && c ≤ 'F')

theorem hexDigitsAux_zero (f : Nat) : hexDigitsAux f 0 = [] := by
  cases f <;> simp [hexDigitsAux]

theorem hexDigitsAux_congr :
    ∀ f₁ f₂ n : Nat, n ≤ f₁ → n ≤ f₂ → hexDigitsAux f₁ n = hexDigitsAux f₂ n := by
  intro f₁
  induction f₁ with
  | zero =>
    intro f₂ n h1 _
    have : n = 0 := by omega
    subst this
    rw [hexDigitsAux_zero, hexDigitsAux_zero]
  | succ f ih =>
    intro f₂ n h1 h2
    by_cases hn : n = 0
    · subst hn
      rw [hexDigitsAux_zero, hexDigitsAux_zero]
    · cases f₂ with
      | zero => omega
      | succ g =>
        simp only [hexDigitsAux, if_neg hn]
        have hd : n / 16 < n := Nat.div_lt_self (by omega) (by omega)
        rw [ih g (n / 16) (by omega) (by omega)]

theorem toHexDigits_zero : toHexDigits 0 = [] := rfl

theorem toHexDigits_eq (n : Nat) (hn : n ≠ 0) :
    toHexDigits n = toHexDigits (n / 16) ++ [digitChar (n % 16)] := by
  cases n with
  | zero => exact absurd rfl hn
  | succ m =>
    show hexDigitsAux (m + 1) (m + 1) = _
    simp only [hexDigitsAux, if_neg hn]
    have hd : (m + 1) / 16 < m + 1 := Nat.div_lt_self (by omega) (by omega)
    rw [hexDigitsAux_congr m ((m + 1) / 16) ((m + 1) / 16) (by omega) (le_refl _)]
    rfl

theorem toHexDigits_length_le : ∀ k n : Nat, n < 16 ^ k → (toHexDigits n).length ≤ k := by
  intro k
  induction k with
  | zero =>
    intro n hn
    have : n = 0 := by simpa using hn
    subst this
    simp [toHexDigits_zero]
  | succ k ih =>
    intro n hn
    by_cases h0 : n = 0
    · subst h0
      simp [toHexDigits_zero]
    · rw [toHexDigits_eq n h0]
      have hdiv : n / 16 < 16 ^ k := by
        rw [Nat.div_lt_iff_lt_mul (by omega)]
        calc n < 16 ^ (k + 1) := hn
        _ = 16 ^ k * 16 := by ring
      have := ih (n / 16) hdiv
      simp only [List.length_append, List.length_cons, List.length_nil]
      omega

theorem digitChar_hex (m : Nat) (hm : m < 16) : isHexUpper (digitChar m) = true := by
  interval_cases m <;> decide

theorem toHexDigits_mem (n : Nat) :
    ∀ c ∈ toHexDigits n, isHexUpper c = true := by
  induction n using Nat.strong_induction_on with
  | _ n ih =>
    by_cases h0 : n = 0
    · subst h0
      intro c hc
      simp [toHexDigits_zero] at hc
    · rw [toHexDigits_eq n h0]
      intro c hc
      rcases List.mem_append.mp hc with hc1 | hc2
      · exact ih (n / 16) (Nat.div_lt_self (by omega) (by omega)) c hc1
      · have : c = digitChar (n % 16) := by simpa using hc2
        rw [this]
        exact digitChar_hex _ (Nat.mod_lt n (by omega))

theorem jsNatToHexUpper_length (n : Nat) (h : n < 65536) :
    1 ≤ (jsNatToHexUpper n).length ∧ (jsNatToHexUpper n).length ≤ 4 := by
  unfold jsNatToHexUpper
  by_cases h0 : n = 0
  · simp [h0]
  · simp only [if_neg h0]
    constructor
    · rw [toHexDigits_eq n h0]
      simp
    · exact toHexDigits_length_le 4 n (by norm_num at h ⊢; omega)

theorem jsNatToHexUpper_mem (n : Nat) :
    ∀ c ∈ jsNatToHexUpper n, isHexUpper c = true := by
  unfold jsNatToHexUpper
  by_cases h0 : n = 0
  · simp only [if_pos h0]
    intro c hc
    have : c = '0' := by simpa using hc
    rw [this]
    decide
  · simp only [if_neg h0]
    exact toHexDigits_mem n

/-! ## Well-formedness of the checksum output -/

theorem crc16_masked_lt (s : List Char) : crc16Register s &&& 0xFFFF < 65536 :=
  lt_of_le_of_lt Nat.and_le_right (by norm_num)

theorem calculateCRC16_length (s : List Char) : (calculateCRC16 s).length = 4 := by
  unfold calculateCRC16 sliceLast
  have hh := jsNatToHexUpper_length _ (crc16_masked_lt s)
  simp only [List.length_drop, List.length_append, List.length_cons, List.length_nil]
  omega

theorem calculateCRC16_hex (s : List Char) :
    ∀ c ∈ calculateCRC16 s, isHexUpper c = true := by
  unfold calculateCRC16 sliceLast
  intro c hc
  have hc2 := List.mem_of_mem_drop hc
  simp only [List.cons_append, List.nil_append, List.mem_cons] at hc2
  rcases hc2 with h1 | h1 | h1 | h1
  · rw [h1]; decide
  · rw [h1]; decide
  · rw [h1]; decide
  · exact jsNatToHexUpper_mem _ c h1

/-! ## The CRC-16/CCITT-FALSE reference (from the specification's words) -/

/-- Modelled from the spec (§4.1): one round of the CRC-16/CCITT-FALSE
reference — if the top bit is set, shift left by one and XOR with the
polynomial `0x1021`, else shift left by one; the register is explicitly
masked to 16 bits after every shift/XOR. -/
def refCrcRound (crc : Nat) : Nat :=
  if crc &&& 0x8000 ≠ 0 then ((crc * 2) ^^^ 0x1021) % 65536 else (crc * 2) % 65536

/-- Modelled from the spec (§4.1): one character step of the reference —
the code point masked to a single byte, shifted into the high byte, XORed
into the register, followed by eight rounds. -/
def refCrcStep (crc code : Nat) : Nat :=
  (List.range 8).foldl (fun c _ => refCrcRound c) ((crc ^^^ (code &&& 0xFF) * 256) % 65536)

/-- Modelled from the spec (§4.1): the CRC-16/CCITT-FALSE register over a
string, initial value `0xFFFF`, masked to 16 bits at the end. -/
def refCrc16 (s : List Char) : Nat :=
  (s.foldl (fun crc ch => refCrcStep crc ch.toNat) 0xFFFF) % 65536

theorem xor_mod_two16 (a b : Nat) : (a ^^^ b) % 65536 = (a % 65536) ^^^ (b % 65536) := by
  have h : (65536 : Nat) = 2 ^ 16 := by norm_num
  rw [h, ← Nat.and_pow_two_sub_one_eq_mod, ← Nat.and_pow_two_sub_one_eq_mod,
    ← Nat.and_pow_two_sub_one_eq_mod, Nat.and_xor_distrib_right]

theorem and_mod_two16 (a m : Nat) (hm : 65535 &&& m = m) :
    a % 65536 &&& m = a &&& m := by
  have h : (65536 : Nat) = 2 ^ 16 := by norm_num
  rw [h, ← Nat.and_pow_two_sub_one_eq_mod, Nat.and_assoc]
  norm_num
  rw [hm]

theorem mul2_mod_two16 (c : Nat) : c % 65536 * 2 % 65536 = c * 2 % 65536 := by
  conv_rhs => rw [Nat.mul_mod c 2 65536]

theorem crcRound_mod (c : Nat) : crcRound c % 65536 = refCrcRound (c % 65536) := by
  unfold crcRound refCrcRound js32
  have hb : c % 65536 &&& 0x8000 = c &&& 0x8000 := and_mod_two16 c 0x8000 (by decide)
  by_cases h : c &&& 0x8000 ≠ 0
  · rw [if_pos h, if_pos (by rw [hb]; exact h)]
    rw [Nat.mod_mod_of_dvd _ (by norm_num), xor_mod_two16,
      Nat.mod_mod_of_dvd _ (by norm_num), xor_mod_two16 (c % 65536 * 2) 4129,
      mul2_mod_two16]
  · rw [if_neg h, if_neg (by rw [hb]; exact h)]
    rw [Nat.mod_mod_of_dvd _ (by norm_num), ← mul2_mod_two16]

theorem fold_rounds_mod (l : List Nat) :
    ∀ x, (l.foldl (fun c _ => crcRound c) x) % 65536 =
      l.foldl (fun c _ => refCrcRound c) (x % 65536) := by
  induction l with
  | nil => intro x; rfl
  | cons a t ih =>
    intro x
    simp only [List.foldl_cons]
    rw [ih, crcRound_mod]

theorem crcStep_mod (crc code : Nat) :
    crcStep crc code % 65536 = refCrcStep (crc % 65536) code := by
  unfold crcStep refCrcStep js32
  rw [fold_rounds_mod]
  congr 1
  rw [Nat.mod_mod_of_dvd _ (by norm_num), xor_mod_two16,
    Nat.mod_mod_of_dvd _ (by norm_num), xor_mod_two16 (crc % 65536)]
  congr 1
  · rw [Nat.mod_mod_of_dvd _ (by norm_num)]
  · have h256 : code &&& 255 = code % 256 := by
      have h : (256 : Nat) = 2 ^ 8 := by norm_num
      rw [h, ← Nat.and_pow_two_sub_one_eq_mod]
    rw [h256]
    have : (65536 : Nat) = 256 * 256 := by norm_num
    rw [this, Nat.mul_mod_mul_right]
    have hlt : code % 256 * 256 < 256 * 256 := by
      have h2 := Nat.mod_lt code (show 0 < 256 by norm_num)
      omega
    rw [Nat.mod_eq_of_lt hlt]

theorem refCrcRound_lt (c : Nat) : refCrcRound c < 65536 := by
  unfold refCrcRound
  split <;> exact Nat.mod_lt _ (by norm_num)

theorem refCrcStep_lt (c k : Nat) : refCrcStep c k < 65536 := by
  unfold refCrcStep
  rw [show List.range 8 = [0, 1, 2, 3, 4, 5, 6, 7] from rfl]
  simp only [List.foldl_cons, List.foldl_nil]
  exact refCrcRound_lt _

theorem refFold_lt (s : List Char) :
    ∀ x, x < 65536 → s.foldl (fun crc ch => refCrcStep crc ch.toNat) x < 65536 := by
  induction s with
  | nil => intro x hx; exact hx
  | cons a t ih =>
    intro x _
    simp only [List.foldl_cons]
    exact ih _ (refCrcStep_lt _ _)

theorem crcfold_mod (s : List Char) :
    ∀ x, (s.foldl (fun crc ch => crcStep crc ch.toNat) x) % 65536 =
      s.foldl (fun crc ch => refCrcStep crc ch.toNat) (x % 65536) := by
  induction s with
  | nil => intro x; rfl
  | cons a t ih =>
    intro x
    simp only [List.foldl_cons]
    rw [ih, crcStep_mod]

theorem crc16Register_eq_ref (s : List Char) :
    crc16Register s &&& 0xFFFF = refCrc16 s := by
  have hmask : crc16Register s &&& 0xFFFF = crc16Register s % 65536 := by
    have h : (65536 : Nat) = 2 ^ 16 := by norm_num
    rw [h, ← Nat.and_pow_two_sub_one_eq_mod]
  rw [hmask]
  unfold crc16Register refCrc16
  rw [crcfold_mod]
  have h1 : (65535 : Nat) % 65536 = 65535 := by norm_num
  rw [h1, Nat.mod_eq_of_lt (refFold_lt s 65535 (by norm_num))]

/-! ## Characterising the composer -/

/-- A successful composition, written out: the split parts reassembled
around the amount field, with the fresh checksum appended. -/
theorem compose_ok (t a : List Char) (v : Nat) (p0 p1 : List Char)
    (hlen : ¬ t.length < 10) (hnum : jsNumber a = some v) (hv : v ≠ 0)
    (hsplit : splitOnStr anchorMarker (processedOf t) = [p0, p1]) :
    createDynamicQRIS t a =
      .ok ((p0 ++ amountFieldOf a ++ anchorMarker ++ p1) ++
        calculateCRC16 (p0 ++ amountFieldOf a ++ anchorMarker ++ p1)) := by
  simp only [createDynamicQRIS, if_neg hlen, hnum, if_neg hv, hsplit]

/-- Inversion of a successful composition. -/
theorem compose_ok_inv (t a s : List Char)
    (h : createDynamicQRIS t a = .ok s) :
    ∃ v p0 p1, jsNumber a = some v ∧ v ≠ 0 ∧ 10 ≤ t.length ∧
      splitOnStr anchorMarker (processedOf t) = [p0, p1] ∧
      s = (p0 ++ amountFieldOf a ++ anchorMarker ++ p1) ++
        calculateCRC16 (p0 ++ amountFieldOf a ++ anchorMarker ++ p1) := by
  unfold createDynamicQRIS at h
  split at h
  · exact absurd h (by simp)
  · split at h
    · exact absurd h (by simp)
    · rename_i hlen v hnum
      split at h
      · exact absurd h (by simp)
      · rename_i hv
        split at h
        · rename_i p0 p1 hsplit
          refine ⟨v, p0, p1, hnum, hv, by omega, hsplit, ?_⟩
          simpa using h.symm
        · exact absurd h (by simp)

/-! ## Sample inputs for concrete instances -/

/-- A sample template: static marker once, one anchor, 4-character tail
standing for the old checksum. -/
def sampleTemplate : List Char := "0102115802IDWXYZ".toList

/-- A sample template containing neither mode marker. -/
def plainTemplate : List Char := "ABCDEF5802IDWXYZ".toList

/-- A numeric amount string of 100 characters. -/
def hundredOnes : List Char := List.replicate 100 '1'

/-- The payload carried by a composer result (empty for errors); used to
state concrete counterexamples about the produced output. -/
def outOf : QrisResult → List Char
  | .ok s => s
  | .error _ => []

/-! ## Claim C1 -/

/-- Claim C1 (round-trip law): for every template and amount the composer
accepts, stripping the trailing 4 characters of `createDynamicQRIS`'s
output and recomputing the 16-bit checksum over the remaining prefix
yields exactly those stripped 4 characters. -/
theorem claim1_roundtrip (t a s : List Char)
    (h : createDynamicQRIS t a = .ok s) :
    calculateCRC16 (s.take (s.length - 4)) = s.drop (s.length - 4) := by
  obtain ⟨v, p0, p1, _, _, _, _, hs⟩ := compose_ok_inv t a s h
  subst hs
  have hcl := calculateCRC16_length (p0 ++ amountFieldOf a ++ anchorMarker ++ p1)
  have hlen : ((p0 ++ amountFieldOf a ++ anchorMarker ++ p1) ++
      calculateCRC16 (p0 ++ amountFieldOf a ++ anchorMarker ++ p1)).length - 4 =
      (p0 ++ amountFieldOf a ++ anchorMarker ++ p1).length := by
    rw [List.length_append, hcl]
    omega
  rw [hlen, List.take_left, List.drop_left]

/-- Concrete instance of C1: template `"0102115802IDWXYZ"`, amount
`"15000"`. -/
theorem claim1_roundtrip_witness :
    calculateCRC16 ((outOf (createDynamicQRIS sampleTemplate "15000".toList)).take
        ((outOf (createDynamicQRIS sampleTemplate "15000".toList)).length - 4)) =
      (outOf (createDynamicQRIS sampleTemplate "15000".toList)).drop
        ((outOf (createDynamicQRIS sampleTemplate "15000".toList)).length - 4) :=
  claim1_roundtrip sampleTemplate "15000".toList
    (outOf (createDynamicQRIS sampleTemplate "15000".toList)) (by decide)

/-! ## Claim C2 -/

/-- Claim C2: the source's checksum function agrees with the
CRC-16/CCITT-FALSE reference (initial register `0xFFFF`, code point masked
to one byte and XORed into the high byte, eight rounds of shift-left with
conditional XOR of the polynomial `0x1021`, the register truncated to 16
bits throughout) on every input string — both as the masked 16-bit
register value and as the rendered 4-hex-character checksum. -/
theorem claim2_crc_is_ccitt_false (s : List Char) :
    crc16Register s &&& 0xFFFF = refCrc16 s ∧
      calculateCRC16 s =
        sliceLast 4 (['0', '0', '0'] ++ jsNatToHexUpper (refCrc16 s)) := by
  refine ⟨crc16Register_eq_ref s, ?_⟩
  unfold calculateCRC16
  rw [crc16Register_eq_ref s]

/-! ## Claim C8 -/

/-- Claim C8: the checksum function is deterministic (a pure function —
equal outputs on every invocation at the same input) and its output is
always well-formed: exactly 4 characters, each an uppercase hexadecimal
digit. -/
theorem claim8_checksum_wellformed (s : List Char) :
    calculateCRC16 s = calculateCRC16 s ∧
      (calculateCRC16 s).length = 4 ∧
      (calculateCRC16 s).all isHexUpper = true := by
  refine ⟨rfl, calculateCRC16_length s, ?_⟩
  rw [List.all_eq_true]
  intro c hc
  exact calculateCRC16_hex s c hc

/-! ## Claim C4 -/

theorem split_two_of_countPos_one (s : List Char)
    (h1 : countPos anchorMarker s = 1) :
    ∃ p0 p1, splitOnStr anchorMarker s = [p0, p1] ∧ s = p0 ++ anchorMarker ++ p1 := by
  have hsl := splitOnStr_length anchorMarker (by decide) (by decide) s.length s (le_refl _)
  rw [h1] at hsl
  cases hq : splitOnStr anchorMarker s with
  | nil => exact absurd hq (splitOnStr_ne_nil _ _)
  | cons x xs =>
    cases xs with
    | nil => rw [hq] at hsl; simp at hsl
    | cons y ys =>
      cases ys with
      | nil =>
        exact ⟨x, y, rfl, splitOnStr_two anchorMarker (by decide) s.length s (le_refl _) x y hq⟩
      | cons z zs => rw [hq] at hsl; simp at hsl

/-- Claim C4 as stated is false: with a valid amount, a template in which
the anchor `"5802ID"` occurs twice — the second occurrence straddling the
stripped trailing 4 characters — composes successfully instead of failing
with `MalformedTemplate`. -/
theorem claim4_counterexample :
    countPos anchorMarker "A5802IDB5802ID".toList ≠ 1 ∧
      jsNumber "1".toList = some 1 ∧
      (createDynamicQRIS "A5802IDB5802ID".toList "1".toList).isOk = true :=
  ⟨by decide, by decide, by decide⟩

/-- Claim C4 amended: the anchor count the composer reacts to is taken in
the checksum-stripped, mode-replaced template; whenever that count is not
exactly one (and the base-data and amount guards pass), the composer fails
with `MalformedTemplate` and returns no output. -/
theorem claim4_amended (t a : List Char) (v : Nat)
    (hlen : ¬ t.length < 10) (hnum : jsNumber a = some v) (hv : v ≠ 0)
    (hcount : countPos anchorMarker (processedOf t) ≠ 1) :
    createDynamicQRIS t a = .error .malformedTemplate := by
  have hsl := splitOnStr_length anchorMarker (by decide) (by decide)
    (processedOf t).length (processedOf t) (le_refl _)
  simp only [createDynamicQRIS, if_neg hlen, hnum, if_neg hv]
  cases hq : splitOnStr anchorMarker (processedOf t) with
  | nil => exact absurd hq (splitOnStr_ne_nil _ _)
  | cons x xs =>
    cases xs with
    | nil => rfl
    | cons y ys =>
      cases ys with
      | nil =>
        rw [hq] at hsl
        simp at hsl
        exact absurd (by omega) hcount
      | cons z zs => rfl

/-- Concrete instance of C4 (amended): a template with no anchor at all is
rejected as malformed. -/
theorem claim4_amended_witness :
    createDynamicQRIS "ABCDEFGHIJKL".toList "1".toList = .error .malformedTemplate :=
  claim4_amended "ABCDEFGHIJKL".toList "1".toList 1
    (by decide) (by decide) (by decide) (by decide)

/-! ## Claim C5 -/

/-- Claim C5 as stated is false: a 100-character numeric amount string is
claimed to be rejected with `InvalidAmount`, but the code has no length
check and accepts it. -/
theorem claim5_counterexample :
    ¬ (createDynamicQRIS plainTemplate hundredOnes = .error .invalidAmount ↔
        (jsNumber hundredOnes = none ∨ jsNumber hundredOnes = some 0 ∨
          99 < hundredOnes.length)) := by
  decide

/-- Claim C5 amended: once the base-data guard passes, the composer rejects
with `InvalidAmount` exactly when the amount is non-numeric or its numeric
value is zero (non-positive); there is no length bound, and the rejection
is decided before any template processing or field formatting (it fires on
malformed templates as well). -/
theorem claim5_amended (t a : List Char) (hlen : ¬ t.length < 10) :
    createDynamicQRIS t a = .error .invalidAmount ↔
      (jsNumber a = none ∨ jsNumber a = some 0) := by
  simp only [createDynamicQRIS, if_neg hlen]
  cases hn : jsNumber a with
  | none => simp
  | some v =>
    by_cases hv : v = 0
    · subst hv
      simp
    · simp only [if_neg hv]
      constructor
      · intro h
        exfalso
        cases hq : splitOnStr anchorMarker (processedOf t) with
        | nil => exact absurd hq (splitOnStr_ne_nil _ _)
        | cons x xs =>
          cases xs with
          | nil => rw [hq] at h; simp at h
          | cons y ys =>
            cases ys with
            | nil => rw [hq] at h; simp at h
            | cons z zs => rw [hq] at h; simp at h
      · intro h
        rcases h with h | h
        · exact absurd h (by simp)
        · simp at h
          exact absurd h hv

/-- Concrete instance of C5 (amended): amount `"0"` is rejected with
`InvalidAmount` on a template with no anchor, showing the amount check
fires first. -/
theorem claim5_amended_witness :
    createDynamicQRIS "ABCDEFGHIJKL".toList "0".toList = .error .invalidAmount ↔
      (jsNumber "0".toList = none ∨ jsNumber "0".toList = some 0) :=
  claim5_amended "ABCDEFGHIJKL".toList "0".toList (by decide)

/-! ## Claim C9 -/

theorem processedOf_length (t : List Char) : (processedOf t).length = t.length - 4 := by
  unfold processedOf
  rw [replaceFirst_length staticMarker dynamicMarker rfl]
  unfold strip4
  rw [List.length_take]
  exact Nat.min_eq_left (Nat.sub_le _ _)

/-- Claim C9 as stated is false: on a template in which the anchor occurs
exactly once but straddling the stripped trailing 4 characters,
`createDynamicQRIS` throws while `createQRIS` returns a payload (one that
embeds the JS rendering `"undefined"` of the missing split part). -/
theorem claim9_counterexample :
    countPos anchorMarker "ABCD5802ID".toList = 1 ∧
      jsNumber "1".toList = some 1 ∧
      createDynamicQRIS "ABCD5802ID".toList "1".toList ≠
        QrisResult.ok (createQRIS "1".toList "ABCD5802ID".toList) :=
  ⟨by decide, by decide, by decide⟩

/-- Claim C9 amended: counting the anchor occurrence in the
checksum-stripped, mode-replaced template instead of the raw template, the
two implementations produce character-for-character equal payloads
whenever that count is exactly one and the amount passes the validating
implementation's guard. -/
theorem claim9_amended (t a : List Char) (v : Nat)
    (hnum : jsNumber a = some v) (hv : v ≠ 0)
    (hcount : countPos anchorMarker (processedOf t) = 1) :
    createDynamicQRIS t a = QrisResult.ok (createQRIS a t) := by
  obtain ⟨p0, p1, hsplit, hrec⟩ := split_two_of_countPos_one _ hcount
  have hlen10 : ¬ t.length < 10 := by
    have hc := congrArg List.length hrec
    rw [processedOf_length] at hc
    simp only [List.length_append] at hc
    have han : anchorMarker.length = 6 := rfl
    omega
  rw [compose_ok t a v p0 p1 hlen10 hnum hv hsplit]
  congr 1
  simp only [createQRIS, hsplit]
  have h0 : jsAt [p0, p1] 0 = p0 := rfl
  have h1 : jsAt [p0, p1] 1 = p1 := rfl
  rw [h0, h1]
  have hcore : p0 ++ (['5', '4'] ++ pad2 a.length ++ a ++ anchorMarker) ++ p1 =
      p0 ++ amountFieldOf a ++ anchorMarker ++ p1 := by
    unfold amountFieldOf
    simp [List.append_assoc]
  rw [hcore]

/-- Concrete instance of C9 (amended): both implementations produce the
same payload for template `"0102115802IDWXYZ"` and amount `"1"`. -/
theorem claim9_amended_witness :
    createDynamicQRIS sampleTemplate "1".toList =
      QrisResult.ok (createQRIS "1".toList sampleTemplate) :=
  claim9_amended sampleTemplate "1".toList 1 (by decide) (by decide) (by decide)

/-! ## Claim C10 -/

/-- Modelled from the claim's words in C10: the length modulo 100,
zero-padded to two digits. -/
def pad2ModSpec (n : Nat) : List Char :=
  [digitChar (n % 100 / 10), digitChar (n % 100 % 10)]

/-- Claim C10: for every amount string that reaches the formatter, of any
length, the emitted two-character length prefix is the last two characters
of `"0" ++ decimal(length)`, i.e. the length modulo 100 zero-padded to two
digits; in particular amount strings of length 100 or more do not make the
composer fail — it succeeds with the modulo prefix. -/
theorem claim10_prefix_mod100 (t a : List Char) (v : Nat) (p0 p1 : List Char)
    (hlen : ¬ t.length < 10) (hnum : jsNumber a = some v) (hv : v ≠ 0)
    (hsplit : splitOnStr anchorMarker (processedOf t) = [p0, p1]) :
    amountFieldOf a = ['5', '4'] ++ pad2ModSpec a.length ++ a ∧
      createDynamicQRIS t a =
        .ok ((p0 ++ amountFieldOf a ++ anchorMarker ++ p1) ++
          calculateCRC16 (p0 ++ amountFieldOf a ++ anchorMarker ++ p1)) := by
  constructor
  · unfold amountFieldOf pad2ModSpec
    have e1 : a.length % 100 / 10 = a.length / 10 % 10 := by
      have h := Nat.mod_mul_right_div_self a.length 10 10
      norm_num at h
      exact h
    have e2 : a.length % 100 % 10 = a.length % 10 := Nat.mod_mod_of_dvd _ (by norm_num)
    rw [pad2_eq_mod, e1, e2]
  · exact compose_ok t a v p0 p1 hlen hnum hv hsplit

/-- Concrete instance of C10: a 100-character amount is accepted and its
length prefix is `"00"` (100 mod 100, zero-padded). -/
theorem claim10_witness :
    amountFieldOf hundredOnes = ['5', '4'] ++ pad2ModSpec hundredOnes.length ++ hundredOnes ∧
      createDynamicQRIS plainTemplate hundredOnes =
        .ok (("ABCDEF".toList ++ amountFieldOf hundredOnes ++ anchorMarker ++ "".toList) ++
          calculateCRC16
            ("ABCDEF".toList ++ amountFieldOf hundredOnes ++ anchorMarker ++ "".toList)) :=
  claim10_prefix_mod100 plainTemplate hundredOnes ((10 ^ 100 - 1) / 9)
    "ABCDEF".toList "".toList (by decide) (by decide) (by decide) (by decide)

/-! ## Claim C7 -/

/-- Claim C7: length invariant — a successful output's length is the head
length plus the amount-field length plus the anchor-field length plus the
tail length plus 4; equivalently, the template length minus 4 (discarded
checksum) plus the new amount-field length plus 4 (fresh checksum). -/
theorem claim7_length_invariant (t a s p0 p1 : List Char)
    (h : createDynamicQRIS t a = .ok s)
    (hsplit : splitOnStr anchorMarker (processedOf t) = [p0, p1]) :
    s.length = p0.length + (amountFieldOf a).length + anchorMarker.length +
        p1.length + 4 ∧
      s.length = t.length - 4 + (amountFieldOf a).length + 4 := by
  obtain ⟨v, q0, q1, hnum, hv, hlen10, hsplit', hs⟩ := compose_ok_inv t a s h
  rw [hsplit] at hsplit'
  injection hsplit' with e0 hrest
  injection hrest with e1 _
  subst e0
  subst e1
  subst hs
  have hcl := calculateCRC16_length (p0 ++ amountFieldOf a ++ anchorMarker ++ p1)
  have hrec : processedOf t = p0 ++ anchorMarker ++ p1 :=
    splitOnStr_two anchorMarker (by decide) (processedOf t).length (processedOf t)
      (le_refl _) p0 p1 hsplit
  have hc := congrArg List.length hrec
  rw [processedOf_length] at hc
  simp only [List.length_append] at hc
  constructor
  · simp only [List.length_append, hcl]
  · simp only [List.length_append, hcl]
    omega

/-- Concrete instance of C7: template `"0102115802IDWXYZ"` (length 16),
amount `"15000"` — the output has length 16 + 9 = 25. -/
theorem claim7_witness :
    (outOf (createDynamicQRIS sampleTemplate "15000".toList)).length =
        "010212".toList.length + (amountFieldOf "15000".toList).length +
          anchorMarker.length + "".toList.length + 4 ∧
      (outOf (createDynamicQRIS sampleTemplate "15000".toList)).length =
        sampleTemplate.length - 4 + (amountFieldOf "15000".toList).length + 4 :=
  claim7_length_invariant sampleTemplate "15000".toList
    (outOf (createDynamicQRIS sampleTemplate "15000".toList))
    "010212".toList "".toList (by decide) (by decide)

/-! ## Claim C6 -/

/-- Modelled from the claim's words in C6: the two-digit zero-padded
decimal length — the decimal rendering, left-padded with `'0'` to at least
two digits (three or more digits remain unpadded, so for lengths of 100 or
more this is longer than two characters). -/
def zeroPad2Spec (n : Nat) : List Char :=
  if n < 10 then ['0'] ++ jsNatToString n else jsNatToString n

theorem pad2_eq_zeroPad2Spec (n : Nat) (h : n ≤ 99) : pad2 n = zeroPad2Spec n := by
  unfold zeroPad2Spec jsNatToString
  by_cases h10 : n < 10
  · rw [if_pos h10, pad2_eq_mod]
    by_cases h0 : n = 0
    · subst h0
      rfl
    · rw [if_neg h0, toDecDigits_small n (by omega) h10,
        Nat.div_eq_of_lt h10, Nat.zero_mod, Nat.mod_eq_of_lt h10]
      rfl
  · rw [if_neg h10, if_neg (by omega), pad2_eq_mod,
      toDecDigits_mid n (by omega) (by omega),
      Nat.mod_eq_of_lt (show n / 10 < 10 by omega)]

/-- The composer's output for `plainTemplate` and the 100-character amount
`hundredOnes`, written out: head `"ABCDEF"`, field `"5400" ++ hundredOnes`
(prefix `"00"`), anchor, checksum `"9098"`. -/
def hundredOut : List Char :=
  "ABCDEF5400".toList ++ hundredOnes ++ "5802ID9098".toList

/-- The checksum of the 100-ones payload, computed in 25-character chunks
(forcing the whole 122-character fold at once is too deep for the
kernel). -/
theorem hundredCrc :
    calculateCRC16 ("ABCDEF5400".toList ++ hundredOnes ++ "5802ID".toList) =
      "9098".toList := by
  have e : "ABCDEF5400".toList ++ hundredOnes ++ "5802ID".toList =
      "ABCDEF5400".toList ++ (List.replicate 25 '1' ++ (List.replicate 25 '1' ++
        (List.replicate 25 '1' ++ (List.replicate 25 '1' ++ "5802ID".toList)))) := by
    decide
  have hreg : crc16Register ("ABCDEF5400".toList ++ hundredOnes ++ "5802ID".toList) =
      1670942872 := by
    unfold crc16Register
    rw [e, List.foldl_append, List.foldl_append, List.foldl_append, List.foldl_append,
      List.foldl_append]
    have h0 : "ABCDEF5400".toList.foldl (fun crc ch => crcStep crc ch.toNat) 0xFFFF =
        3424913572 := by decide
    have h1 : (List.replicate 25 '1').foldl (fun crc ch => crcStep crc ch.toNat)
        3424913572 = 2547264852 := by decide
    have h2 : (List.replicate 25 '1').foldl (fun crc ch => crcStep crc ch.toNat)
        2547264852 = 2914757339 := by decide
    have h3 : (List.replicate 25 '1').foldl (fun crc ch => crcStep crc ch.toNat)
        2914757339 = 3837571900 := by decide
    have h4 : (List.replicate 25 '1').foldl (fun crc ch => crcStep crc ch.toNat)
        3837571900 = 3094795958 := by decide
    have h5 : "5802ID".toList.foldl (fun crc ch => crcStep crc ch.toNat)
        3094795958 = 1670942872 := by decide
    rw [h0, h1, h2, h3, h4, h5]
  unfold calculateCRC16
  rw [hreg]
  decide

/-- Claim C6 as stated is false: a numeric amount of 100 characters is
accepted, yet the produced output nowhere contains
`"54" ++ zero-padded-decimal-length ++ amount` — the code emits the
two-character prefix `"00"`, not the three-digit length `"100"`. -/
theorem claim6_counterexample :
    createDynamicQRIS plainTemplate hundredOnes = .ok hundredOut ∧
      hundredOnes.length = 100 ∧
      countPos (['5', '4'] ++ zeroPad2Spec hundredOnes.length ++ hundredOnes)
        hundredOut = 0 := by
  refine ⟨?_, by decide, by decide⟩
  have hco := compose_ok plainTemplate hundredOnes ((10 ^ 100 - 1) / 9)
    "ABCDEF".toList "".toList (by decide) (by decide) (by decide) (by decide)
  have hf : "ABCDEF".toList ++ amountFieldOf hundredOnes ++ anchorMarker ++ "".toList =
      "ABCDEF5400".toList ++ hundredOnes ++ "5802ID".toList := by decide
  have harg : ("ABCDEF".toList ++ amountFieldOf hundredOnes ++ anchorMarker ++
        "".toList) ++
      calculateCRC16 ("ABCDEF".toList ++ amountFieldOf hundredOnes ++ anchorMarker ++
        "".toList) = hundredOut := by
    rw [hf, hundredCrc]
    decide
  rw [hco, harg]

/-- Claim C6 amended: for accepted amounts of at most 99 characters, the
amount field is `"54"` followed by the two-digit zero-padded decimal
length followed by the amount string, and it sits immediately after the
head segment (immediately before the anchor `"5802ID"`) in the output. -/
theorem claim6_amended (t a s p0 p1 : List Char)
    (h : createDynamicQRIS t a = .ok s)
    (hsplit : splitOnStr anchorMarker (processedOf t) = [p0, p1])
    (hlen : a.length ≤ 99) :
    amountFieldOf a = ['5', '4'] ++ zeroPad2Spec a.length ++ a ∧
      s = (p0 ++ amountFieldOf a ++ anchorMarker ++ p1) ++
        calculateCRC16 (p0 ++ amountFieldOf a ++ anchorMarker ++ p1) := by
  obtain ⟨v, q0, q1, hnum, hv, hlen10, hsplit', hs⟩ := compose_ok_inv t a s h
  rw [hsplit] at hsplit'
  injection hsplit' with e0 hrest
  injection hrest with e1 _
  subst e0
  subst e1
  refine ⟨?_, hs⟩
  unfold amountFieldOf
  rw [pad2_eq_zeroPad2Spec a.length hlen]

/-- Concrete instance of C6: amount `"15000"` produces the field
`"54" ++ "05" ++ "15000" = "540515000"` immediately after the head segment
`"010212"`. -/
theorem claim6_witness :
    amountFieldOf "15000".toList =
        ['5', '4'] ++ zeroPad2Spec "15000".toList.length ++ "15000".toList ∧
      outOf (createDynamicQRIS sampleTemplate "15000".toList) =
        ("010212".toList ++ amountFieldOf "15000".toList ++ anchorMarker ++ "".toList) ++
          calculateCRC16
            ("010212".toList ++ amountFieldOf "15000".toList ++ anchorMarker ++ "".toList) :=
  claim6_amended sampleTemplate "15000".toList
    (outOf (createDynamicQRIS sampleTemplate "15000".toList))
    "010212".toList "".toList (by decide) (by decide) (by decide)

/-! ## Claim C3 -/

/-- Occurrences of a six-character marker in the reassembled payload
(before the checksum) split cleanly into occurrences in the head, in the
amount field, in the anchor, and in the tail: no occurrence can span a
boundary, because the amount field and the anchor both start with `'5'`
and the marker (given the hypotheses) avoids it. -/
theorem countPos_with_amount (m : List Char) (hm6 : m.length = 6)
    (hdropA : ∀ j, j < 6 → 0 < j → (m.drop j).isPrefixOf anchorMarker = false)
    (htakeA : ∀ j, j < 6 → 0 < j → (m.take j).isSuffixOf anchorMarker = false)
    (hhead5 : ∀ j, j < 6 → 0 < j → (m.drop j).headI ≠ '5')
    (a p0 p1 : List Char) (ha : a ≠ []) :
    countPos m (p0 ++ amountFieldOf a ++ anchorMarker ++ p1) =
      countPos m p0 + countPos m (amountFieldOf a) + countPos m anchorMarker +
        countPos m p1 := by
  have hane : a.length ≠ 0 := fun hc => ha (List.length_eq_zero.mp hc)
  have haf : (amountFieldOf a).length = 4 + a.length := by
    unfold amountFieldOf
    simp [pad2_length]
    omega
  have hdrop_ne : ∀ j, j < 6 → 0 < j → m.drop j ≠ [] := by
    intro j hj hj0
    apply List.ne_nil_of_length_pos
    rw [List.length_drop, hm6]
    omega
  have hspan2 : ∀ j, j < m.length → 0 < j →
      (m.drop j).isPrefixOf (anchorMarker ++ p1) = false := by
    intro j hj hj0
    rw [hm6] at hj
    rw [prefix_of_append_short (by rw [List.length_drop, hm6]; show 6 - j ≤ 6; omega)]
    exact hdropA j hj hj0
  have hspan1 : ∀ j, j < m.length → 0 < j →
      (m.drop j).isPrefixOf (amountFieldOf a ++ (anchorMarker ++ p1)) = false := by
    intro j hj hj0
    rw [hm6] at hj
    rw [prefix_of_append_short (by rw [List.length_drop, hm6, haf]; omega)]
    exact not_isPrefixOf_cons_of_headI ('4' :: (pad2 a.length ++ a))
      (hdrop_ne j hj hj0) (hhead5 j hj hj0)
  have htake3 : ∀ j, j < m.length → 0 < j →
      (m.take j).isSuffixOf anchorMarker = false := by
    intro j hj hj0
    rw [hm6] at hj
    exact htakeA j hj hj0
  rw [List.append_assoc, List.append_assoc, countPos_append_right hspan1 p0,
    countPos_append_right hspan2 (amountFieldOf a),
    countPos_append_left htake3 p1]
  omega

/-- Occurrences of a marker across the anchor seam. -/
theorem countPos_anchor_seam (m : List Char) (hm6 : m.length = 6)
    (hdropA : ∀ j, j < 6 → 0 < j → (m.drop j).isPrefixOf anchorMarker = false)
    (htakeA : ∀ j, j < 6 → 0 < j → (m.take j).isSuffixOf anchorMarker = false)
    (p0 p1 : List Char) :
    countPos m (p0 ++ anchorMarker ++ p1) =
      countPos m p0 + countPos m anchorMarker + countPos m p1 := by
  apply countPos_mid (by rw [hm6]; show 6 - 1 ≤ 6; omega)
  · intro j hj hj0
    rw [hm6] at hj
    exact hdropA j hj hj0
  · intro j hj hj0
    rw [hm6] at hj
    exact htakeA j hj hj0

/-- Claim C3 as stated is false: a template containing neither mode marker
is accepted, the `replace` silently no-ops, and the output contains the
dynamic-mode marker zero times instead of exactly once. -/
theorem claim3_counterexample :
    (createDynamicQRIS plainTemplate "1".toList).isOk = true ∧
      countPos dynamicMarker (outOf (createDynamicQRIS plainTemplate "1".toList)) = 0 :=
  ⟨by decide, by decide⟩

/-- Claim C3 amended: for an accepted template whose checksum-stripped form
contains the static marker exactly once and the dynamic marker not at all
(or was already dynamic: no static marker and exactly one dynamic marker),
and an accepted amount whose formatted field contains neither marker, the
checksum-stripped portion of the output never contains the static-mode
marker `"010211"` and contains the dynamic-mode marker `"010212"` exactly
once. -/
theorem claim3_amended (t a s : List Char)
    (h : createDynamicQRIS t a = .ok s)
    (hprof : (countPos staticMarker (strip4 t) = 1 ∧
        countPos dynamicMarker (strip4 t) = 0) ∨
      (countPos staticMarker (strip4 t) = 0 ∧
        countPos dynamicMarker (strip4 t) = 1))
    (hafs : countPos staticMarker (amountFieldOf a) = 0)
    (hafd : countPos dynamicMarker (amountFieldOf a) = 0) :
    countPos staticMarker (s.take (s.length - 4)) = 0 ∧
      countPos dynamicMarker (s.take (s.length - 4)) = 1 := by
  obtain ⟨v, p0, p1, hnum, hv, hlen10, hsplit, hs⟩ := compose_ok_inv t a s h
  have ha : a ≠ [] := by
    intro hnil
    rw [hnil] at hnum
    have h0 : jsNumber ([] : List Char) = some 0 := rfl
    rw [h0] at hnum
    exact hv (Option.some.inj hnum).symm
  -- the checksum-stripped portion of the output is the reassembled core
  have htake : s.take (s.length - 4) =
      p0 ++ amountFieldOf a ++ anchorMarker ++ p1 := by
    subst hs
    have hcl := calculateCRC16_length (p0 ++ amountFieldOf a ++ anchorMarker ++ p1)
    have hlen : ((p0 ++ amountFieldOf a ++ anchorMarker ++ p1) ++
        calculateCRC16 (p0 ++ amountFieldOf a ++ anchorMarker ++ p1)).length - 4 =
        (p0 ++ amountFieldOf a ++ anchorMarker ++ p1).length := by
      rw [List.length_append, hcl]
      omega
    rw [hlen, List.take_left]
  -- marker counts of the processed template
  have hPs : countPos staticMarker (processedOf t) = 0 ∧
      countPos dynamicMarker (processedOf t) = 1 := by
    rcases hprof with ⟨h1, h0⟩ | ⟨h0, h1⟩
    · obtain ⟨u, w, hsw, hrw⟩ := replaceFirst_found staticMarker dynamicMarker
        (by decide) (strip4 t) (by omega)
      have hds : countPos staticMarker (strip4 t) =
          countPos staticMarker u + countPos staticMarker staticMarker +
            countPos staticMarker w := by
        rw [hsw]
        exact countPos_mid (by decide) (by decide) (by decide) u w
      have hdd : countPos dynamicMarker (strip4 t) =
          countPos dynamicMarker u + countPos dynamicMarker staticMarker +
            countPos dynamicMarker w := by
        rw [hsw]
        exact countPos_mid (by decide) (by decide) (by decide) u w
      have hss : countPos staticMarker staticMarker = 1 := countPos_self _ (by decide)
      have hds0 : countPos dynamicMarker staticMarker = 0 := by decide
      rw [h1, hss] at hds
      rw [h0, hds0] at hdd
      have hP : processedOf t = u ++ dynamicMarker ++ w := hrw
      constructor
      · rw [hP, countPos_mid (by decide) (by decide) (by decide) u w]
        have : countPos staticMarker dynamicMarker = 0 := by decide
        omega
      · rw [hP, countPos_mid (by decide) (by decide) (by decide) u w]
        have : countPos dynamicMarker dynamicMarker = 1 := countPos_self _ (by decide)
        omega
    · have hP : processedOf t = strip4 t :=
        replaceFirst_not_found staticMarker dynamicMarker (by decide) (strip4 t) h0
      rw [hP]
      exact ⟨h0, h1⟩
  -- transport across the anchor seam
  have hrec : processedOf t = p0 ++ anchorMarker ++ p1 :=
    splitOnStr_two anchorMarker (by decide) (processedOf t).length (processedOf t)
      (le_refl _) p0 p1 hsplit
  have hseam_s := countPos_anchor_seam staticMarker (by decide) (by decide) (by decide) p0 p1
  have hseam_d := countPos_anchor_seam dynamicMarker (by decide) (by decide) (by decide) p0 p1
  rw [hrec] at hPs
  rw [hseam_s] at hPs
  rw [hseam_d] at hPs
  have hanch_s : countPos staticMarker anchorMarker = 0 := by decide
  have hanch_d : countPos dynamicMarker anchorMarker = 0 := by decide
  -- counts in the reassembled core
  have hcore_s := countPos_with_amount staticMarker (by decide) (by decide) (by decide)
    (by decide) a p0 p1 ha
  have hcore_d := countPos_with_amount dynamicMarker (by decide) (by decide) (by decide)
    (by decide) a p0 p1 ha
  rw [htake, hcore_s, hcore_d]
  omega

/-- Concrete instance of C3 (amended): template `"0102115802IDWXYZ"`
(static marker once), amount `"1"` — the stripped output contains no
static marker and exactly one dynamic marker. -/
theorem claim3_amended_witness :
    countPos staticMarker
        ((outOf (createDynamicQRIS sampleTemplate "1".toList)).take
          ((outOf (createDynamicQRIS sampleTemplate "1".toList)).length - 4)) = 0 ∧
      countPos dynamicMarker
        ((outOf (createDynamicQRIS sampleTemplate "1".toList)).take
          ((outOf (createDynamicQRIS sampleTemplate "1".toList)).length - 4)) = 1 :=
  claim3_amended sampleTemplate "1".toList
    (outOf (createDynamicQRIS sampleTemplate "1".toList))
    (by decide) (by decide) (by decide) (by decide)

end Qris
